import Mathlib

/-!
# Verification of the steam-dos configuration generator

Shallow embedding of `src/confgen.py` and `src/midi.py` from the
steam-dos repository, together with proofs about the embedded
operations.  Machine strings are modelled as Lean `String`
(`String.data : List Char`), file contents as byte lists (`List Nat`),
and fallible operations as `Option` / `Except`.  External modules that
are not part of the provided sources (`winpathlib.to_posix_path`, the
`settings` provider, `configparser`'s text-to-sections reader) are
modelled as explicit function parameters, so every claim is stated
relative to an arbitrary behaviour of those dependencies.
-/

set_option autoImplicit false

namespace SteamDos

/-! ## String helpers

Python `str.lower` / `str.upper` restricted to ASCII, which is all the
source ever feeds them (commands, drive letters, flags).
-/

def lowerChars (l : List Char) : List Char := l.map Char.toLower

def upperChars (l : List Char) : List Char := l.map Char.toUpper

def lowerStr (s : String) : String := ⟨lowerChars s.data⟩

def upperStr (s : String) : String := ⟨upperChars s.data⟩

def isAsciiAlpha (c : Char) : Bool :=
  ('a' ≤ c && c ≤ 'z') || ('A' ≤ c && c ≤ 'Z')

def isDigitChar (c : Char) : Bool := '0' ≤ c && c ≤ '9'

/-- A lowercase hexadecimal digit (the alphabet of `hexdigest()`). -/
def isHexDigitChar (c : Char) : Bool :=
  isDigitChar c || ('a' ≤ c && c ≤ 'f')

/-- `suff` is a suffix of `s` (used for Python `str.endswith`). -/
def strEndsWith (suff s : String) : Bool :=
  s.data.drop (s.data.length - suff.data.length) = suff.data

/-! ## midi.py — data model -/

/-- `MidiPort = collections.namedtuple('MidiPort', 'addr name desc space flags')`. -/
structure MidiPort where
  addr : String
  name : String
  desc : String
  space : String
  flags : String
deriving DecidableEq, Repr

/-! ## midi.py — regex matching for `/proc/asound/seq/clients` lines

The two patterns of `list_alsa_sequencer_ports` are

    client_pattern = r'^Client +(\d+) : "(.*)" \[(.*)\]'
    port_pattern   = r'^  Port +(\d+) : "(.*)" \((.{4})\)'

matched with `re.match` (anchored at the start, not at the end).
`greedyDotStar k l` implements a greedy `(.*)` followed by the rest of
the pattern `k`, with backtracking: the longest split of `l` for which
`k` succeeds on the remainder wins, exactly as in the Python regex
engine.  `.` never matches a newline, which we obtain by truncating the
line at its first newline before matching (no other element of these
two patterns can match `'\n'` either).
-/

def greedyDotStar {β : Type} (k : List Char → Option β) :
    List Char → Option (List Char × β)
  | [] => (k []).map (fun b => ([], b))
  | c :: t =>
    match greedyDotStar k t with
    | some (g, b) => some (c :: g, b)
    | none => (k (c :: t)).map (fun b => ([], b))

/-- Strip a literal prefix, or fail. -/
def stripLit : List Char → List Char → Option (List Char)
  | [], l => some l
  | _ :: _, [] => none
  | p :: ps, c :: cs => if c = p then stripLit ps cs else none

/-- ` +` : at least one space, then greedily all following spaces. -/
def stripSpaces1 : List Char → Option (List Char)
  | ' ' :: t => some (t.dropWhile (fun c => c = ' '))
  | _ => none

/-- `(\d+)` : a maximal nonempty digit run. -/
def takeDigits1 (l : List Char) : Option (List Char × List Char) :=
  let ds := l.takeWhile isDigitChar
  if ds.isEmpty then none else some (ds, l.drop ds.length)

/-- `^Client +(\d+) : "(.*)" \[(.*)\]` via `re.match`:
returns (client id, client name, address space). -/
def clientLineMatch (line : String) : Option (String × String × String) := do
  let l := line.data.takeWhile (fun c => c ≠ '\n')
  let l ← stripLit "Client".data l
  let l ← stripSpaces1 l
  let (ds, l) ← takeDigits1 l
  let l ← stripLit " : \"".data l
  let (nm, (sp, _rest)) ← greedyDotStar
    (fun r => (stripLit "\" [".data r).bind
      (fun r2 => greedyDotStar (fun r3 => stripLit "]".data r3) r2)) l
  pure (⟨ds⟩, ⟨nm⟩, ⟨sp⟩)

/-- `^  Port +(\d+) : "(.*)" \((.{4})\)` via `re.match`:
returns (port number, description, 4-char flags). -/
def portLineMatch (line : String) : Option (String × String × String) := do
  let l := line.data.takeWhile (fun c => c ≠ '\n')
  let l ← stripLit "  Port".data l
  let l ← stripSpaces1 l
  let (ds, l) ← takeDigits1 l
  let l ← stripLit " : \"".data l
  let (desc, (fl, _rest)) ← greedyDotStar
    (fun r => (stripLit "\" (".data r).bind
      (fun r2 =>
        let f4 := r2.take 4
        if f4.length = 4 then (stripLit ")".data (r2.drop 4)).map (fun r3 => (f4, r3))
        else none)) l
  pure (⟨ds⟩, ⟨desc⟩, ⟨fl⟩)

/-! ## midi.py — port enumeration and synthesiser detection -/

/-- The loop body of `list_alsa_sequencer_ports`, carrying the open
client context `(client, name, space)` (initially three empty strings,
as in the source). -/
def seqPortsFromLines : List String → String → String → String → List MidiPort
  | [], _, _, _ => []
  | line :: rest, client, name, space =>
    match clientLineMatch line with
    | some (c, n, sp) => seqPortsFromLines rest c n sp
    | none =>
      match portLineMatch line with
      | some (p, d, fl) =>
        ⟨client ++ ":" ++ p, name, d, space, fl⟩ ::
          seqPortsFromLines rest client name space
      | none => seqPortsFromLines rest client name space

/-- `list_alsa_sequencer_ports`.  The status file is modelled as
`Option (List String)` (its readable lines, each still carrying its
trailing newline): `none` means `/proc/asound/seq/clients` is absent or
unreadable, in which case `open()` raises — the source has no handler,
so the error propagates (`Except.error`). -/
def list_alsa_sequencer_ports (file : Option (List String)) :
    Except Unit (List MidiPort) :=
  match file with
  | none => .error ()
  | some lines => .ok (seqPortsFromLines lines "" "" "")

/-- Split a character list at `|` (regex alternation separator). -/
def splitBar : List Char → List (List Char)
  | [] => [[]]
  | c :: t =>
    match splitBar t with
    | [] => [[c]]
    | h :: rest =>
      if c = '|' then [] :: h :: rest else (c :: h) :: rest

/-- `re.match` of the name expression against a string, for the literal
alternation subset of regexes the program uses (`r'timidity|fluid'`):
the expression is split at `|` and each alternative is a literal that
must occur at the start of the string.  Anchored at the start, exactly
like `re.match`. -/
def reAltMatch (expr : String) (s : String) : Bool :=
  (splitBar expr.data).any (fun alt => s.data.take alt.length = alt)

/-- The scan loop of `detect_software_synthesiser`: skip ports whose
`flags[1]` is not `'W'`, return the first remaining port whose
lower-cased client name matches the expression. -/
def detectFromPorts (nameExpr : String) : List MidiPort → Option MidiPort
  | [] => none
  | p :: rest =>
    if p.flags.data.get? 1 ≠ some 'W' then detectFromPorts nameExpr rest
    else if reAltMatch nameExpr (lowerStr p.name) then some p
    else detectFromPorts nameExpr rest

/-- `detect_software_synthesiser`: iterates the generator, so an
enumeration failure (absent status file) propagates. -/
def detect_software_synthesiser (nameExpr : String)
    (file : Option (List String)) : Except Unit (Option MidiPort) :=
  (list_alsa_sequencer_ports file).map (detectFromPorts nameExpr)

/-! ## confgen.py — configuration data model

`DosboxConfiguration` is a `dict` subclass whose key `'autoexec'` always
holds an ordered list of command strings while every other key holds an
option mapping.  We model it as a record: the mapping sections (an
insertion-ordered association list, as Python dicts are), the
distinguished autoexec list, and the recorded text encoding.  Python's
`section in self.keys()` therefore becomes `hasSectionB`, which counts
the ever-present `'autoexec'` key as present.
-/

/-- One mapping section: insertion-ordered `option ↦ value`. -/
abbrev SectionOpts := List (String × String)

structure DosboxConfig where
  sections : List (String × SectionOpts)
  autoexec : List String
  encoding : String
deriving DecidableEq, Repr

/-- The result of parsing one `.conf` file, at the level the constructor
consumes it: the non-autoexec ini sections, and the autoexec lines if an
`[autoexec]` section is present (`configparser` iteration yields its
option keys, i.e. the raw lines). -/
structure ParsedConf where
  sections : List (String × SectionOpts)
  autoexecLines : Option (List String)
deriving DecidableEq, Repr

/-- Errors the constructor pipeline can raise (Python exceptions). -/
inductive ConfErr where
  /-- `configparser.NoSectionError` from `DosboxConfiguration.set`. -/
  | noSection
  /-- `TypeError` from assigning an option into the autoexec list. -/
  | typeErr
  /-- the `assert commands or conf_files or exe` in `__init__`. -/
  | assertionFailed
  /-- a `.conf` file that decodes under neither utf-8 nor cp1250. -/
  | decodeFailed
deriving DecidableEq, Repr

/-- `section in self.keys()` — the `'autoexec'` key always exists. -/
def DosboxConfig.hasSectionB (cfg : DosboxConfig) (name : String) : Bool :=
  name == "autoexec" || (cfg.sections.lookup name).isSome

/-- The option mapping of a section, if it is a mapping section. -/
def getSectionOpts (cfg : DosboxConfig) (name : String) : Option SectionOpts :=
  cfg.sections.lookup name

/-- The value of one option of one section. -/
def getOptVal (cfg : DosboxConfig) (name opt : String) : Option String :=
  (getSectionOpts cfg name).bind (fun opts => opts.lookup opt)

/-- Python dict assignment `d[k] = v`: overwrite in place, else append. -/
def optsSet : SectionOpts → String → String → SectionOpts
  | [], k, v => [(k, v)]
  | (k', v') :: t, k, v =>
    if k' = k then (k', v) :: t else (k', v') :: optsSet t k v

/-- Update the named section in place through `f`. -/
def sectionsUpdate : List (String × SectionOpts) → String →
    (SectionOpts → SectionOpts) → List (String × SectionOpts)
  | [], _, _ => []
  | (n, o) :: t, name, f =>
    if n = name then (n, f o) :: t else (n, o) :: sectionsUpdate t name f

/-- `DosboxConfiguration.set`: raise `NoSectionError` when the section is
missing; assigning into the autoexec list raises `TypeError`. -/
def DosboxConfig.set (cfg : DosboxConfig) (sec opt value : String) :
    Except ConfErr DosboxConfig :=
  if cfg.hasSectionB sec then
    if sec == "autoexec" then .error .typeErr
    else .ok { cfg with
      sections := sectionsUpdate cfg.sections sec
        (fun o => optsSet o opt value) }
  else .error .noSection

/-- The per-section body of `__import_ini_sections__`: skip `autoexec`,
adopt an unseen section wholesale, otherwise override key-by-key via
`set`. -/
def importSection (cfg : DosboxConfig) (sec : String × SectionOpts) :
    Except ConfErr DosboxConfig :=
  if sec.1 == "autoexec" then .ok cfg
  else if cfg.hasSectionB sec.1 then
    sec.2.foldlM (fun c kv => c.set sec.1 kv.1 kv.2) cfg
  else .ok { cfg with sections := cfg.sections ++ [sec] }

/-- `__import_ini_sections__` over all sections of one source. -/
def importIniSections (cfg : DosboxConfig)
    (secs : List (String × SectionOpts)) : Except ConfErr DosboxConfig :=
  secs.foldlM importSection cfg

/-! ## confgen.py — building the configuration -/

/-- `os.path.split` for posix paths: split at the last `/`; the head
keeps its trailing slashes only when it consists of nothing else. -/
def splitPosixPath (p : String) : String × String :=
  let r := p.data.reverse
  let tail := r.takeWhile (fun c => c ≠ '/')
  let headRev := r.drop tail.length
  let head :=
    if headRev.all (fun c => c = '/') then headRev.reverse
    else (headRev.dropWhile (fun c => c = '/')).reverse
  (⟨head⟩, ⟨tail.reverse⟩)

/-- The autoexec lines emitted for the target executable (the `if exe:`
block of `DosboxConfiguration.__init__`), given the case-resolved posix
path of the executable. -/
def exeCommands (toPosix : String → String) (exe : String)
    (exitAfterExe : Bool) : List String :=
  let pp := toPosix exe
  let path := (splitPosixPath pp).1
  let file := (splitPosixPath pp).2
  ["mount C " ++ (if path = "" then "." else path), "C:"]
    ++ [if strEndsWith ".bat" (lowerStr file) then "call " ++ file else file]
    ++ (if exitAfterExe then ["exit"] else [])

/-- The per-file loop body of `DosboxConfiguration.__init__`: import the
parsed sections, record a non-default encoding, and (unless
`-noautoexec`) append the file's autoexec lines. -/
def buildStep (noautoexec : Bool) (cfg : DosboxConfig)
    (f : ParsedConf × String) : Except ConfErr DosboxConfig := do
  let c ← importIniSections cfg f.1.sections
  let c := if f.2 ≠ "utf-8" then { c with encoding := f.2 } else c
  let c :=
    if noautoexec = false then
      match f.1.autoexecLines with
      | some ls => { c with autoexec := c.autoexec ++ ls }
      | none => c
    else c
  return c

/-- `DosboxConfiguration.__init__`, consuming the configuration files in
already-parsed form (`(parsed sections, encoding)` pairs, in the order
given): the initial empty state, the assert, the default-file fallback,
the per-file imports, the inline commands, the tweak overlay, and the
executable block. -/
def buildConfigParsed (files : List (ParsedConf × String))
    (commands : List String) (exe : Option String)
    (noautoexec exitAfterExe : Bool)
    (tweak : List (String × SectionOpts)) (toPosix : String → String)
    (defaultConf : Option (ParsedConf × String)) :
    Except ConfErr DosboxConfig := do
  if commands.isEmpty && files.isEmpty && exe.isNone then
    throw .assertionFailed
  let effFiles := if files.isEmpty then defaultConf.toList else files
  let c ← effFiles.foldlM (buildStep noautoexec)
    { sections := [], autoexec := [], encoding := "utf-8" }
  let c := { c with autoexec := c.autoexec ++ commands }
  let c ← importIniSections c tweak
  let c :=
    match exe with
    | none => c
    | some e =>
      { c with autoexec := c.autoexec ++ exeCommands toPosix e exitAfterExe }
  return c

/-! ## confgen.py — text encodings

`parse_dosbox_config` first reads the file as utf-8 and falls back to
cp1250 on a `UnicodeDecodeError`.  File contents are modelled as byte
lists.  `utf8DecodeChars` is the standard strict UTF-8 decoder
(rejecting overlong forms, surrogates and out-of-range code points, as
Python's codec does); `cp1250DecodeChars` uses the Windows-1250 table,
whose five unassigned bytes fail to decode.
-/

def utf8DecodeChars : List Nat → Option (List Char)
  | [] => some []
  | b :: t =>
    if b < 0x80 then
      (utf8DecodeChars t).map (fun cs => Char.ofNat b :: cs)
    else if 0xC2 ≤ b ∧ b ≤ 0xDF then
      match t with
      | c1 :: t1 =>
        if 0x80 ≤ c1 ∧ c1 < 0xC0 then
          (utf8DecodeChars t1).map
            (fun cs => Char.ofNat ((b - 0xC0) * 0x40 + (c1 - 0x80)) :: cs)
        else none
      | [] => none
    else if 0xE0 ≤ b ∧ b ≤ 0xEF then
      match t with
      | c1 :: c2 :: t2 =>
        let lo1 := if b = 0xE0 then 0xA0 else 0x80
        let hi1 := if b = 0xED then 0x9F else 0xBF
        if lo1 ≤ c1 ∧ c1 ≤ hi1 ∧ 0x80 ≤ c2 ∧ c2 < 0xC0 then
          (utf8DecodeChars t2).map
            (fun cs =>
              Char.ofNat ((b - 0xE0) * 0x1000 + (c1 - 0x80) * 0x40 + (c2 - 0x80)) :: cs)
        else none
      | _ => none
    else if 0xF0 ≤ b ∧ b ≤ 0xF4 then
      match t with
      | c1 :: c2 :: c3 :: t3 =>
        let lo1 := if b = 0xF0 then 0x90 else 0x80
        let hi1 := if b = 0xF4 then 0x8F else 0xBF
        if lo1 ≤ c1 ∧ c1 ≤ hi1 ∧ 0x80 ≤ c2 ∧ c2 < 0xC0 ∧ 0x80 ≤ c3 ∧ c3 < 0xC0 then
          (utf8DecodeChars t3).map
            (fun cs =>
              Char.ofNat ((b - 0xF0) * 0x40000 + (c1 - 0x80) * 0x1000
                + (c2 - 0x80) * 0x40 + (c3 - 0x80)) :: cs)
        else none
      | _ => none
    else none

def utf8Decode (bytes : List Nat) : Option String :=
  (utf8DecodeChars bytes).map (fun cs => ⟨cs⟩)

/-- Windows-1250 high half (byte ↦ code point); the five bytes `0x81`,
`0x83`, `0x88`, `0x90`, `0x98` are unassigned and absent. -/
def cp1250Table : List (Nat × Nat) :=
  [(0x80, 0x20AC), (0x82, 0x201A), (0x84, 0x201E), (0x85, 0x2026),
   (0x86, 0x2020), (0x87, 0x2021), (0x89, 0x2030), (0x8A, 0x0160),
   (0x8B, 0x2039), (0x8C, 0x015A), (0x8D, 0x0164), (0x8E, 0x017D),
   (0x8F, 0x0179), (0x91, 0x2018), (0x92, 0x2019), (0x93, 0x201C),
   (0x94, 0x201D), (0x95, 0x2022), (0x96, 0x2013), (0x97, 0x2014),
   (0x99, 0x2122), (0x9A, 0x0161), (0x9B, 0x203A), (0x9C, 0x015B),
   (0x9D, 0x0165), (0x9E, 0x017E), (0x9F, 0x017A), (0xA0, 0x00A0),
   (0xA1, 0x02C7), (0xA2, 0x02D8), (0xA3, 0x0141), (0xA4, 0x00A4),
   (0xA5, 0x0104), (0xA6, 0x00A6), (0xA7, 0x00A7), (0xA8, 0x00A8),
   (0xA9, 0x00A9), (0xAA, 0x015E), (0xAB, 0x00AB), (0xAC, 0x00AC),
   (0xAD, 0x00AD), (0xAE, 0x00AE), (0xAF, 0x017B), (0xB0, 0x00B0),
   (0xB1, 0x00B1), (0xB2, 0x02DB), (0xB3, 0x0142), (0xB4, 0x00B4),
   (0xB5, 0x00B5), (0xB6, 0x00B6), (0xB7, 0x00B7), (0xB8, 0x00B8),
   (0xB9, 0x0105), (0xBA, 0x015F), (0xBB, 0x00BB), (0xBC, 0x013D),
   (0xBD, 0x02DD), (0xBE, 0x013E), (0xBF, 0x017C), (0xC0, 0x0154),
   (0xC1, 0x00C1), (0xC2, 0x00C2), (0xC3, 0x0102), (0xC4, 0x00C4),
   (0xC5, 0x0139), (0xC6, 0x0106), (0xC7, 0x00C7), (0xC8, 0x010C),
   (0xC9, 0x00C9), (0xCA, 0x0118), (0xCB, 0x00CB), (0xCC, 0x011A),
   (0xCD, 0x00CD), (0xCE, 0x00CE), (0xCF, 0x010E), (0xD0, 0x0110),
   (0xD1, 0x0143), (0xD2, 0x0147), (0xD3, 0x00D3), (0xD4, 0x00D4),
   (0xD5, 0x0150), (0xD6, 0x00D6), (0xD7, 0x00D7), (0xD8, 0x0158),
   (0xD9, 0x016E), (0xDA, 0x00DA), (0xDB, 0x0170), (0xDC, 0x00DC),
   (0xDD, 0x00DD), (0xDE, 0x0162), (0xDF, 0x00DF), (0xE0, 0x0155),
   (0xE1, 0x00E1), (0xE2, 0x00E2), (0xE3, 0x0103), (0xE4, 0x00E4),
   (0xE5, 0x013A), (0xE6, 0x0107), (0xE7, 0x00E7), (0xE8, 0x010D),
   (0xE9, 0x00E9), (0xEA, 0x0119), (0xEB, 0x00EB), (0xEC, 0x011B),
   (0xED, 0x00ED), (0xEE, 0x00EE), (0xEF, 0x010F), (0xF0, 0x0111),
   (0xF1, 0x0144), (0xF2, 0x0148), (0xF3, 0x00F3), (0xF4, 0x00F4),
   (0xF5, 0x0151), (0xF6, 0x00F6), (0xF7, 0x00F7), (0xF8, 0x0159),
   (0xF9, 0x016F), (0xFA, 0x00FA), (0xFB, 0x0171), (0xFC, 0x00FC),
   (0xFD, 0x00FD), (0xFE, 0x0163), (0xFF, 0x02D9)]

def cp1250DecodeByte (b : Nat) : Option Char :=
  if b < 0x80 then some (Char.ofNat b)
  else (cp1250Table.lookup b).map Char.ofNat

def cp1250Decode (bytes : List Nat) : Option String :=
  (bytes.mapM cp1250DecodeByte).map (fun cs => ⟨cs⟩)

/-- `parse_dosbox_config`: read assuming utf-8; on `UnicodeDecodeError`
retry once with cp1250 and return that encoding.  The conversion of the
decoded text into ini sections is `configparser` internals, outside the
provided sources, so it is a parameter `iniOf`. -/
def parse_dosbox_config (iniOf : String → ParsedConf) (bytes : List Nat) :
    Except ConfErr (ParsedConf × String) :=
  match utf8Decode bytes with
  | some txt => .ok (iniOf txt, "utf-8")
  | none =>
    match cp1250Decode bytes with
    | some txt => .ok (iniOf txt, "cp1250")
    | none => .error .decodeFailed

/-- `DosboxConfiguration.__init__` from raw file bytes: each
configuration file is parsed by `parse_dosbox_config` and the parsed
forms feed `buildConfigParsed`.  (The source interleaves parsing and
importing inside one loop; on the success path the two are equal.) -/
def buildConfigBytes (iniOf : String → ParsedConf)
    (fileBytes : List (List Nat)) (commands : List String)
    (exe : Option String) (noautoexec exitAfterExe : Bool)
    (tweak : List (String × SectionOpts)) (toPosix : String → String)
    (defaultConf : Option (ParsedConf × String)) :
    Except ConfErr DosboxConfig := do
  let files ← fileBytes.mapM (parse_dosbox_config iniOf)
  buildConfigParsed files commands exe noautoexec exitAfterExe tweak
    toPosix defaultConf

/-! ## confgen.py — unique .conf names (`hashlib.sha1`)

`uniq_conf_name*` hash the utf-8 encoding of
`app_id + ''.join(args) + salt` with SHA-1 and keep the first six hex
digits.  SHA-1 (FIPS 180-4) is implemented here over `Nat` with
explicit reduction modulo `2^32`.
-/

def w32 (n : Nat) : Nat := n % 4294967296

def rotl32 (k x : Nat) : Nat :=
  w32 ((x <<< k) ||| (x >>> (32 - k)))

def sha1K (i : Nat) : Nat :=
  if i < 20 then 0x5A827999
  else if i < 40 then 0x6ED9EBA1
  else if i < 60 then 0x8F1BBCDC
  else 0xCA62C1D6

def sha1F (i b c d : Nat) : Nat :=
  if i < 20 then (b &&& c) ||| ((b ^^^ 0xFFFFFFFF) &&& d)
  else if i < 40 then b ^^^ c ^^^ d
  else if i < 60 then (b &&& c) ||| (b &&& d) ||| (c &&& d)
  else b ^^^ c ^^^ d

/-- `n` bytes of `v`, big-endian. -/
def beBytes : Nat → Nat → List Nat
  | 0, _ => []
  | n + 1, v => beBytes n (v / 256) ++ [v % 256]

/-- Append the `0x80` marker, zero padding to 56 mod 64, and the 64-bit
big-endian bit length. -/
def sha1Pad (msg : List Nat) : List Nat :=
  let len := msg.length
  msg ++ 0x80 :: (List.replicate ((119 - len % 64) % 64) 0
    ++ beBytes 8 (8 * len))

/-- Split into 64-byte chunks (structural recursion, carrying the
current chunk in reverse and its length, so that it reduces inside the
kernel). -/
def chunks64Go : List Nat → List Nat → Nat → List (List Nat)
  | [], acc, _ => if acc.isEmpty then [] else [acc.reverse]
  | b :: t, acc, n =>
    if n = 63 then (b :: acc).reverse :: chunks64Go t [] 0
    else chunks64Go t (b :: acc) (n + 1)

def chunks64 (l : List Nat) : List (List Nat) := chunks64Go l [] 0

def bytesToWords : List Nat → List Nat
  | a :: b :: c :: d :: t => (((a * 256 + b) * 256 + c) * 256 + d) :: bytesToWords t
  | _ => []

/-- Extend the 16 message words by `n` further schedule words. -/
def sha1Extend : List Nat → Nat → List Nat
  | ws, 0 => ws
  | ws, n + 1 =>
    let m := ws.length
    let x := (ws.getD (m - 3) 0) ^^^ (ws.getD (m - 8) 0)
      ^^^ (ws.getD (m - 14) 0) ^^^ (ws.getD (m - 16) 0)
    sha1Extend (ws ++ [rotl32 1 x]) n

def sha1Compress (h : Nat × Nat × Nat × Nat × Nat) (chunk : List Nat) :
    Nat × Nat × Nat × Nat × Nat :=
  let ws := sha1Extend (bytesToWords chunk) 64
  let r := ws.enum.foldl
    (fun st iw =>
      let temp := w32 (rotl32 5 st.1 + sha1F iw.1 st.2.1 st.2.2.1 st.2.2.2.1
        + st.2.2.2.2 + sha1K iw.1 + iw.2)
      (temp, st.1, rotl32 30 st.2.1, st.2.2.1, st.2.2.2.1)) h
  (w32 (h.1 + r.1), w32 (h.2.1 + r.2.1), w32 (h.2.2.1 + r.2.2.1),
    w32 (h.2.2.2.1 + r.2.2.2.1), w32 (h.2.2.2.2 + r.2.2.2.2))

def sha1Words (msg : List Nat) : Nat × Nat × Nat × Nat × Nat :=
  (chunks64 (sha1Pad msg)).foldl sha1Compress
    (0x67452301, 0xEFCDAB89, 0x98BADCFE, 0x10325476, 0xC3D2E1F0)

def hexDigit (n : Nat) : Char :=
  if n < 10 then Char.ofNat (48 + n) else Char.ofNat (87 + n)

def wordHex8 (w : Nat) : List Char :=
  [hexDigit (w / 0x10000000 % 16), hexDigit (w / 0x1000000 % 16),
   hexDigit (w / 0x100000 % 16), hexDigit (w / 0x10000 % 16),
   hexDigit (w / 0x1000 % 16), hexDigit (w / 0x100 % 16),
   hexDigit (w / 0x10 % 16), hexDigit (w % 16)]

/-- `hashlib.sha1(..).hexdigest()` as a character list. -/
def sha1HexChars (msg : List Nat) : List Char :=
  let h := sha1Words msg
  wordHex8 h.1 ++ wordHex8 h.2.1 ++ wordHex8 h.2.2.1
    ++ wordHex8 h.2.2.2.1 ++ wordHex8 h.2.2.2.2

def sha1Hexdigest (msg : List Nat) : String := ⟨sha1HexChars msg⟩

/-- Standard UTF-8 encoding of one code point (`str.encode('utf-8')`). -/
def utf8EncodeChar (c : Char) : List Nat :=
  let n := c.toNat
  if n < 0x80 then [n]
  else if n < 0x800 then [0xC0 + n / 0x40, 0x80 + n % 0x40]
  else if n < 0x10000 then
    [0xE0 + n / 0x1000, 0x80 + n / 0x40 % 0x40, 0x80 + n % 0x40]
  else
    [0xF0 + n / 0x40000, 0x80 + n / 0x1000 % 0x40,
     0x80 + n / 0x40 % 0x40, 0x80 + n % 0x40]

def utf8EncodeStr (s : String) : List Nat :=
  s.data.foldr (fun c acc => utf8EncodeChar c ++ acc) []

/-- `uniq_conf_name_salted`. -/
def uniq_conf_name_salted (appId : String) (args : List String)
    (salt : String) : String :=
  let uidLine := appId ++ String.join args ++ salt
  let uid : List Char := (sha1HexChars (utf8EncodeStr uidLine)).take 6
  "steam_dos_" ++ appId ++ "_" ++ (⟨uid⟩ : String) ++ ".conf"

/-- `uniq_conf_name` (current, `'v1'`-salted scheme). -/
def uniq_conf_name (appId : String) (args : List String) : String :=
  uniq_conf_name_salted appId args "v1"

/-- `uniq_conf_name_v0` (legacy unsalted scheme, kept for cleanup). -/
def uniq_conf_name_v0 (appId : String) (args : List String) : String :=
  uniq_conf_name_salted appId args ""

/-! ## confgen.py — `to_linux_autoexec`

The three patterns, matched with `re.IGNORECASE` by `re.match`:

    cmd_1      = r'@? *(mount|imgmount) +([a-z]):? +"([^\"]+)"( +(.*))?'
    cmd_2      = r'@? *(mount|imgmount) +([a-z]):? +([^ ]+)( +(.*))?'
    change_drv = r'@? *([a-z]:)\\? *$'

Every quantifier here applies to a single-character class whose
follow-set is disjoint from the class, so the greedy backtracking match
is deterministic: optional elements are consumed exactly when present,
`+`/`*` runs are maximal.  `([^\"]+)` and `([^ ]+)` may span newlines
(negated classes match `'\n'`); `(.*)` stops at the first newline; `$`
accepts an optional final newline.
-/

/-- The shared head of `cmd_1`/`cmd_2`: `@? *(mount|imgmount) +([a-z]):? +`.
Returns (lower-cased command word, drive letter, remainder). -/
def mountHeadMatch (l0 : List Char) : Option (String × Char × List Char) := do
  let l := match l0 with
    | '@' :: t => t
    | _ => l0
  let l := l.dropWhile (fun c => c = ' ')
  let (cmd, l) ←
    if lowerChars (l.take 5) = "mount".data then some (("mount" : String), l.drop 5)
    else if lowerChars (l.take 8) = "imgmount".data then
      some (("imgmount" : String), l.drop 8)
    else none
  let l ← stripSpaces1 l
  match l with
  | c :: t =>
    if isAsciiAlpha c then
      let t := match t with
        | ':' :: r => r
        | _ => t
      let t ← stripSpaces1 t
      pure (cmd, c, t)
    else none
  | [] => none

/-- `( +(.*))?` — `match.group(4) or ''`: the trailing-arguments text
including its leading spaces, or the empty string. -/
def mountRestGroup (after : List Char) : String :=
  match after with
  | ' ' :: _ => ⟨after.takeWhile (fun c => c ≠ '\n')⟩
  | _ => ""

/-- `cmd_1` (`quoted = true`) or `cmd_2` (`quoted = false`):
returns (command, drive letter, path group, trailing group). -/
def mountMatch (quoted : Bool) (line : String) :
    Option (String × Char × String × String) := do
  let (cmd, drive, l) ← mountHeadMatch line.data
  if quoted then
    match l with
    | '"' :: r =>
      let path := r.takeWhile (fun c => c ≠ '"')
      if path.isEmpty then none
      else
        match r.drop path.length with
        | '"' :: after => pure (cmd, drive, ⟨path⟩, mountRestGroup after)
        | _ => none
    | _ => none
  else
    let path := l.takeWhile (fun c => c ≠ ' ')
    if path.isEmpty then none
    else pure (cmd, drive, ⟨path⟩, mountRestGroup (l.drop path.length))

/-- `change_drv`: a pure drive-change line; returns capture group 1,
the drive letter *with its colon*. -/
def changeDrvMatch (line : String) : Option String :=
  let l := match line.data with
    | '@' :: t => t
    | _ => line.data
  let l := l.dropWhile (fun c => c = ' ')
  match l with
  | c :: ':' :: t =>
    if isAsciiAlpha c then
      let t := match t with
        | '\\' :: r => r
        | _ => t
      let t := t.dropWhile (fun c2 => c2 = ' ')
      if t = [] ∨ t = ['\n'] then some ⟨[c, ':']⟩ else none
    else none
  | _ => none

/-- The per-line transformation of `to_linux_autoexec`: the quoted mount
pattern first, then the unquoted one, then the drive-change pattern,
else the line unchanged.  `to_posix_path` is the external case-resolver
parameter `toPosix`. -/
def toLinuxAutoexecLine (toPosix : String → String) (line : String) : String :=
  match mountMatch true line <|> mountMatch false line with
  | some (cmd, drive, path, rest) =>
    cmd ++ " " ++ (⟨[drive.toUpper]⟩ : String) ++ " \"" ++ toPosix path
      ++ "\"" ++ rest
  | none =>
    match changeDrvMatch line with
    | some drv => upperStr drv
    | none => line

/-- `to_linux_autoexec` over the whole autoexec list. -/
def to_linux_autoexec (toPosix : String → String) (autoexec : List String) :
    List String :=
  autoexec.map (toLinuxAutoexecLine toPosix)

/-! ## confgen.py — `parse_dosbox_arguments`

The `argparse` parser with `-conf` (append), `-c` (append, optional
value), four flags and one optional positional, followed by the explicit
`filter(lambda x: x, args.c or [])` from the source.  `argparse` is
library code; we model its exact-token form: an option value is the next
token when that token does not itself look like an option (contrast
`'-c'` at the end of the list or before another option, which appends
`None`).  Abbreviated (`-noa`) and attached (`-cvalue`) spellings are
not modelled; no claim exercises them.
-/

/-- The accumulated `argparse` namespace before the `-c` filter:
`c` keeps one entry per `-c` occurrence (`none` for a bare `-c`). -/
structure RawArgs where
  conf : List String := []
  c : List (Option String) := []
  noautoexec : Bool := false
  noconsole : Bool := false
  fullscreen : Bool := false
  exitArg : Bool := false
  positionals : List String := []
deriving DecidableEq, Repr

/-- The parsed argument namespace as returned to callers. -/
structure DosboxArgs where
  conf : List String
  c : List String
  noautoexec : Bool
  noconsole : Bool
  fullscreen : Bool
  exitArg : Bool
  file : Option String
deriving DecidableEq, Repr

/-- A token `argparse` treats as an option string rather than a value. -/
def isOptionLike (s : String) : Bool :=
  decide (s.data.take 1 = ['-']) && s != "-"

/-- One token with no following token available (or a token needing no
value): a `-conf` at the end is a missing-value error, a bare `-c`
appends `None`, flags set their field, an unknown option errors, and
anything else is a positional. -/
def scanOne (acc : RawArgs) (t : String) : Option RawArgs :=
  if t = "-conf" then none
  else if t = "-c" then some { acc with c := acc.c ++ [none] }
  else if t = "-noautoexec" then some { acc with noautoexec := true }
  else if t = "-noconsole" then some { acc with noconsole := true }
  else if t = "-fullscreen" then some { acc with fullscreen := true }
  else if t = "-exit" then some { acc with exitArg := true }
  else if isOptionLike t then none
  else some { acc with positionals := acc.positionals ++ [t] }

/-- The token scan: `none` models an `argparse` hard error (missing
`-conf` value, unrecognized option).  A `-c` consumes the next token as
its value exactly when that token does not look like an option;
otherwise the occurrence records `None`. -/
def scanArgs : RawArgs → List String → Option RawArgs
  | acc, [] => some acc
  | acc, [t] => scanOne acc t
  | acc, t :: v :: rest =>
    if t = "-conf" then
      if isOptionLike v then none
      else scanArgs { acc with conf := acc.conf ++ [v] } rest
    else if t = "-c" then
      if isOptionLike v then
        scanArgs { acc with c := acc.c ++ [none] } (v :: rest)
      else scanArgs { acc with c := acc.c ++ [some v] } rest
    else
      match scanOne acc t with
      | some acc2 => scanArgs acc2 (v :: rest)
      | none => none

/-- `parse_dosbox_arguments`: run the scan, reject surplus positionals
(the single `file` slot is `nargs='?'`), then apply the source's
`filter(lambda x: x, args.c or [])`, dropping `None` entries and empty
strings. -/
def parse_dosbox_arguments (tokens : List String) : Option DosboxArgs :=
  (scanArgs {} tokens).bind (fun r =>
    if r.positionals.length ≤ 1 then
      some { conf := r.conf,
             c := (r.c.filterMap id).filter (fun s => s ≠ ""),
             noautoexec := r.noautoexec, noconsole := r.noconsole,
             fullscreen := r.fullscreen, exitArg := r.exitArg,
             file := r.positionals.head? }
    else none)

/-! ## confgen.py — section templates and the two file writers

Each writer is modelled as the ordered list of strings passed to
`file.write(..)`; the file contents are their concatenation.
`create_user_conf_file` additionally returns the encoding the output
file is opened with.  The settings provider's two accessors
(`get_dosbox_fullresolution`, `get_dosbox_scaler`) are external and
appear as the `resolution` / `scaler` parameters.
-/

def sdlSection1 (resolution : String) : String :=
  "[sdl]\nfullscreen=true\nfullresolution=" ++ resolution
    ++ "\noutput=opengl\nautolock=false\nwaitonerror=true\n\n"

def SDL_SECTION_2 : String :=
  "[sdl]\n# fullscreen=true\n# output=opengl\n# autolock=false\n\n"

def renderSection1 (aspect scaler : String) : String :=
  "[render]\naspect=" ++ aspect ++ "\nscaler=" ++ scaler ++ "\n\n"

def RENDER_SECTION_2 : String :=
  "[render]\n"
    ++ "# aspect: Do aspect correction for games using 320x200 resolution.\n"
    ++ "#         Read more: https://www.dosbox.com/wiki/Dosbox.conf#aspect\n"
    ++ "# scaler: Specifies which scaler is used to enlarge and enhance low resolution\n"
    ++ "#         modes, before any scaling done through OpenGL.\n"
    ++ "#         Read more: https://www.dosbox.com/wiki/Dosbox.conf#scaler\n"

def sblasterSection (base irq dma hdma : Nat) : String :=
  "[sblaster]\nsbtype=sb16\nsbbase=" ++ toString base ++ "\nirq="
    ++ toString irq ++ "\ndma=" ++ toString dma ++ "\nhdma="
    ++ toString hdma ++ "\n\n"

def midiSection (port : String) : String :=
  "[midi]\nmpu401=intelligent\nmididevice=default\nmidiconfig="
    ++ port ++ "\n\n"

def dosSection (xms ems umb : String) : String :=
  "[dos]\nxms=" ++ xms ++ "\nems=" ++ ems ++ "\numb=" ++ umb ++ "\n\n"

def commentSection (dosboxArgs : String) : String :=
  "# Generated by steam-dos\n# Based on args to Windows version of DOSBox:\n# "
    ++ dosboxArgs ++ "\n\n"

/-- `conf['dos'].get(key, 'true')` for an existing `[dos]` section. -/
def dosFlagValue (cfg : DosboxConfig) (key : String) : String :=
  ((((cfg.sections.lookup "dos").getD []).lookup key).getD "true")

/-- `create_auto_conf_file`: the sequence of `auto.write(..)` strings.
The detected synthesiser port and the two settings values are inputs
(live host state).  The `[dos]` section is written only under
`if conf and conf.has_section('dos')`; a `None` configuration is
`none` (a constructed `DosboxConfiguration` dict is never empty — it
always holds the `autoexec` key). -/
def create_auto_conf_writes (conf : Option DosboxConfig)
    (mport : Option MidiPort) (resolution scaler : String) : List String :=
  let renderAspect :=
    match conf with
    | some c =>
      if c.hasSectionB "render" then
        (((c.sections.lookup "render").getD []).lookup "aspect").getD "false"
      else "false"
    | none => "false"
  ["# Generated by steam-dos\n", "# This file is re-created on every run\n",
   "\n", sdlSection1 resolution, renderSection1 renderAspect scaler,
   sblasterSection 220 7 1 5]
    ++ (match mport with
        | some p => [midiSection p.addr]
        | none => [])
    ++ (match conf with
        | some c =>
          if c.hasSectionB "dos" then
            [dosSection (dosFlagValue c "xms") (dosFlagValue c "ems")
              (dosFlagValue c "umb")]
          else []
        | none => [])

/-- The `[mixer]` block of `create_user_conf_file`. -/
def mixerWrites (cfg : DosboxConfig) : List String :=
  if cfg.hasSectionB "mixer" then
    "[mixer]\n"
      :: (((cfg.sections.lookup "mixer").getD []).map
            (fun kv => kv.1 ++ "=" ++ kv.2 ++ "\n"))
      ++ ["\n"]
  else []

/-- The `[render]` block of `create_user_conf_file`: `frameskip` is
dropped, `scaler` and `aspect` are commented out, the rest is copied. -/
def renderWrites (cfg : DosboxConfig) : List String :=
  if cfg.hasSectionB "render" then
    RENDER_SECTION_2
      :: (((cfg.sections.lookup "render").getD []).filterMap
            (fun kv =>
              if kv.1 = "frameskip" then none
              else if kv.1 = "scaler" ∨ kv.1 = "aspect" then
                some ("# " ++ kv.1 ++ "=" ++ kv.2 ++ "\n")
              else some (kv.1 ++ "=" ++ kv.2 ++ "\n")))
      ++ ["\n"]
  else []

/-- `create_user_conf_file`: the encoding the output file is opened
with (`conf.encoding`) and the ordered `conf_file.write(..)` strings.
`conf.has_section('autoexec')` is always true for a constructed
configuration, so the autoexec block is always emitted. -/
def create_user_conf_file (cfg : DosboxConfig) (dosboxArgs : String)
    (toPosix : String → String) : String × List String :=
  (cfg.encoding,
    [commentSection dosboxArgs, SDL_SECTION_2]
      ++ mixerWrites cfg
      ++ renderWrites cfg
      ++ "[autoexec]\n"
        :: (to_linux_autoexec toPosix cfg.autoexec).map (fun l => l ++ "\n"))

/-! ## Exception-free images of the import pipeline

`DosboxConfiguration.set` can only raise when called on a section that
is not present; `__import_ini_sections__` always guards the call, so
the importing pipeline never raises.  The following pure functions are the images of
the importing operations on the success path; the lemmas below prove
the `Except`-valued embeddings always return them wrapped in `.ok`.
-/

/-- Pure image of `importSection`. -/
def importSectionPure (cfg : DosboxConfig) (sec : String × SectionOpts) :
    DosboxConfig :=
  if sec.1 = "autoexec" then cfg
  else if (cfg.sections.lookup sec.1).isSome then
    { cfg with
      sections := sectionsUpdate cfg.sections sec.1
        (fun o => sec.2.foldl (fun o2 kv => optsSet o2 kv.1 kv.2) o) }
  else { cfg with sections := cfg.sections ++ [sec] }

/-- Pure image of `importIniSections`. -/
def importPure (cfg : DosboxConfig) (secs : List (String × SectionOpts)) :
    DosboxConfig :=
  secs.foldl importSectionPure cfg

/-- Pure image of `buildStep`. -/
def buildStepPure (noautoexec : Bool) (cfg : DosboxConfig)
    (f : ParsedConf × String) : DosboxConfig :=
  let c := importPure cfg f.1.sections
  let c := if f.2 ≠ "utf-8" then { c with encoding := f.2 } else c
  if noautoexec = false then
    match f.1.autoexecLines with
    | some ls => { c with autoexec := c.autoexec ++ ls }
    | none => c
  else c

/-! ## Spec-side definition for the synthesiser-name claim

The specification says the client name is "compared case-insensitively"
against the given expression.  For the literal-alternation expressions
the program uses, a case-insensitive anchored match lower-cases *both*
the name and the alternatives; this definition follows the
specification's words and is compared against the source-derived
`detectFromPorts` above. -/
def specCaseInsensitiveMatch (expr name : String) : Bool :=
  (splitBar (lowerStr expr).data).any
    (fun alt => (lowerStr name).data.take alt.length = alt)

/-! # Theorems -/

/-! ## Helper lemmas: association lists and the import pipeline -/

theorem beq_false_of_ne {m n : String} (h : ¬m = n) : (m == n) = false := by
  cases h2 : (m == n) with
  | false => rfl
  | true => exact absurd (eq_of_beq h2) h

theorem lookup_sectionsUpdate (secs : List (String × SectionOpts))
    (name : String) (f : SectionOpts → SectionOpts) (m : String) :
    (sectionsUpdate secs name f).lookup m
      = if m = name then (secs.lookup name).map f else secs.lookup m := by
  induction secs with
  | nil => simp [sectionsUpdate]
  | cons hd tl ih =>
    obtain ⟨n, o⟩ := hd
    simp only [sectionsUpdate]
    by_cases hn : n = name
    · subst hn
      rw [if_pos rfl]
      by_cases hm : m = n
      · subst hm
        simp [List.lookup]
      · simp [List.lookup, beq_false_of_ne hm, hm]
    · rw [if_neg hn]
      by_cases hm : m = n
      · subst hm
        have hmname : ¬m = name := hn
        simp [List.lookup, hmname]
      · simp [List.lookup, beq_false_of_ne hm, ih]
        by_cases hmn : m = name
        · subst hmn
          simp [beq_false_of_ne (fun h => hn h.symm)]
        · simp [hmn]

theorem sectionsUpdate_id (secs : List (String × SectionOpts))
    (name : String) : sectionsUpdate secs name (fun o => o) = secs := by
  induction secs with
  | nil => rfl
  | cons hd tl ih =>
    obtain ⟨n, o⟩ := hd
    by_cases hn : n = name <;> simp [sectionsUpdate, hn, ih]

theorem sectionsUpdate_sectionsUpdate (secs : List (String × SectionOpts))
    (name : String) (f g : SectionOpts → SectionOpts) :
    sectionsUpdate (sectionsUpdate secs name f) name g
      = sectionsUpdate secs name (fun o => g (f o)) := by
  induction secs with
  | nil => rfl
  | cons hd tl ih =>
    obtain ⟨n, o⟩ := hd
    by_cases hn : n = name <;> simp [sectionsUpdate, hn, ih]

theorem lookup_optsSet (o : SectionOpts) (k v : String) (k2 : String) :
    (optsSet o k v).lookup k2 = if k2 = k then some v else o.lookup k2 := by
  induction o with
  | nil =>
    by_cases h : k2 = k
    · subst h
      simp [optsSet, List.lookup]
    · simp [optsSet, List.lookup, beq_false_of_ne h, h]
  | cons hd tl ih =>
    obtain ⟨k', v'⟩ := hd
    simp only [optsSet]
    by_cases hk : k' = k
    · subst hk
      rw [if_pos rfl]
      by_cases h : k2 = k'
      · subst h
        simp [List.lookup]
      · simp [List.lookup, beq_false_of_ne h, h]
    · rw [if_neg hk]
      by_cases h : k2 = k'
      · subst h
        simp [List.lookup, hk]
      · simp [List.lookup, beq_false_of_ne h, ih]

/-- The value of `k` after folding `optsSet` over options whose keys do
not include `k` is unchanged. -/
theorem lookup_foldl_optsSet_not_mem (opts : SectionOpts) (o : SectionOpts)
    (k : String) (hk : k ∉ opts.map Prod.fst) :
    (opts.foldl (fun o2 kv => optsSet o2 kv.1 kv.2) o).lookup k
      = o.lookup k := by
  induction opts generalizing o with
  | nil => rfl
  | cons hd tl ih =>
    simp only [List.map_cons, List.mem_cons] at hk
    push_neg at hk
    simp only [List.foldl_cons]
    rw [ih _ hk.2, lookup_optsSet, if_neg hk.1]

/-- With duplicate-free keys, folding `optsSet` sets every listed pair. -/
theorem lookup_foldl_optsSet_mem (opts : SectionOpts) (o : SectionOpts)
    (k v : String) (hnd : (opts.map Prod.fst).Nodup)
    (hmem : (k, v) ∈ opts) :
    (opts.foldl (fun o2 kv => optsSet o2 kv.1 kv.2) o).lookup k = some v := by
  induction opts generalizing o with
  | nil => cases hmem
  | cons hd tl ih =>
    simp only [List.map_cons, List.nodup_cons] at hnd
    simp only [List.foldl_cons]
    rcases List.mem_cons.mp hmem with heq | htl
    · subst heq
      rw [lookup_foldl_optsSet_not_mem _ _ _ hnd.1, lookup_optsSet, if_pos rfl]
    · exact ih _ hnd.2 htl

theorem lookup_append_left {α β : Type} [BEq α]
    (l l2 : List (α × β)) (k : α) (v : β) (h : l.lookup k = some v) :
    (l ++ l2).lookup k = some v := by
  induction l with
  | nil => cases h
  | cons hd tl ih =>
    obtain ⟨a, b⟩ := hd
    simp only [List.lookup] at h ⊢
    cases hab : (k == a) with
    | true => simpa [hab] using h
    | false =>
      rw [hab] at h
      simpa [hab] using ih h

theorem lookup_append_right_of_none {α β : Type} [BEq α]
    (l l2 : List (α × β)) (k : α) (h : l.lookup k = none) :
    (l ++ l2).lookup k = l2.lookup k := by
  induction l with
  | nil => rfl
  | cons hd tl ih =>
    obtain ⟨a, b⟩ := hd
    simp only [List.lookup] at h ⊢
    cases hab : (k == a) with
    | true => rw [hab] at h; cases h
    | false => rw [hab] at h; exact ih h

/-- `DosboxConfiguration.set` on a present mapping section succeeds and
performs the in-place option update. -/
theorem set_ok (cfg : DosboxConfig) (sec opt val : String)
    (h1 : (cfg.sections.lookup sec).isSome) (h2 : sec ≠ "autoexec") :
    cfg.set sec opt val
      = .ok { cfg with
          sections := sectionsUpdate cfg.sections sec
            (fun o => optsSet o opt val) } := by
  unfold DosboxConfig.set
  rw [if_pos, if_neg]
  · simpa [beq_iff_eq] using h2
  · simp [DosboxConfig.hasSectionB, h1]

/-- Folding `set` over the options of a present section succeeds and is
the fold of the pure option update. -/
theorem foldlM_set_eq (opts : SectionOpts) (cfg : DosboxConfig)
    (sec : String) (h1 : (cfg.sections.lookup sec).isSome)
    (h2 : sec ≠ "autoexec") :
    opts.foldlM (fun c kv => DosboxConfig.set c sec kv.1 kv.2) cfg
      = .ok { cfg with
          sections := sectionsUpdate cfg.sections sec
            (fun o => opts.foldl (fun o2 kv => optsSet o2 kv.1 kv.2) o) } := by
  induction opts generalizing cfg with
  | nil =>
    simp [List.foldlM, sectionsUpdate_id]
    rfl
  | cons hd tl ih =>
    rw [List.foldlM_cons, set_ok cfg sec hd.1 hd.2 h1 h2]
    have h1' : (((sectionsUpdate cfg.sections sec
        (fun o => optsSet o hd.1 hd.2))).lookup sec).isSome := by
      rw [lookup_sectionsUpdate, if_pos rfl]
      simpa using h1
    have hbind : ∀ (a : DosboxConfig)
        (f : DosboxConfig → Except ConfErr DosboxConfig),
        (Except.ok a >>= f) = f a := fun a f => rfl
    rw [hbind, ih _ h1']
    simp [sectionsUpdate_sectionsUpdate, List.foldl_cons]

/-- `importSection` never raises: it returns its pure image. -/
theorem importSection_eq (cfg : DosboxConfig) (sec : String × SectionOpts) :
    importSection cfg sec = .ok (importSectionPure cfg sec) := by
  unfold importSection importSectionPure
  by_cases ha : sec.1 = "autoexec"
  · simp [ha]
  · rw [if_neg (by simpa using ha), if_neg ha]
    by_cases hp : (cfg.sections.lookup sec.1).isSome
    · rw [if_pos, if_pos hp]
      · exact foldlM_set_eq _ _ _ hp ha
      · simp [DosboxConfig.hasSectionB, hp]
    · rw [if_neg, if_neg hp]
      simp [DosboxConfig.hasSectionB, ha,
        Option.not_isSome_iff_eq_none.mp hp]

/-- `__import_ini_sections__` never raises: it returns its pure image. -/
theorem importIniSections_eq (cfg : DosboxConfig)
    (secs : List (String × SectionOpts)) :
    importIniSections cfg secs = .ok (importPure cfg secs) := by
  induction secs generalizing cfg with
  | nil => rfl
  | cons hd tl ih =>
    unfold importIniSections importPure
    rw [List.foldlM_cons, importSection_eq]
    have hbind : ∀ (a : DosboxConfig)
        (f : DosboxConfig → Except ConfErr DosboxConfig),
        (Except.ok a >>= f) = f a := fun a f => rfl
    rw [hbind]
    exact ih _

/-- Importing sections never touches the autoexec list or encoding. -/
theorem importSectionPure_autoexec (cfg : DosboxConfig)
    (sec : String × SectionOpts) :
    (importSectionPure cfg sec).autoexec = cfg.autoexec
      ∧ (importSectionPure cfg sec).encoding = cfg.encoding := by
  unfold importSectionPure
  by_cases ha : sec.1 = "autoexec"
  · simp [ha]
  · by_cases hp : (cfg.sections.lookup sec.1).isSome <;> simp [ha, hp]

theorem importPure_autoexec (cfg : DosboxConfig)
    (secs : List (String × SectionOpts)) :
    (importPure cfg secs).autoexec = cfg.autoexec
      ∧ (importPure cfg secs).encoding = cfg.encoding := by
  induction secs generalizing cfg with
  | nil => exact ⟨rfl, rfl⟩
  | cons hd tl ih =>
    refine ⟨?_, ?_⟩
    · exact ((ih (importSectionPure cfg hd)).1).trans
        (importSectionPure_autoexec cfg hd).1
    · exact ((ih (importSectionPure cfg hd)).2).trans
        (importSectionPure_autoexec cfg hd).2

/-- Importing a section never removes a present section. -/
theorem importSectionPure_hasSection (cfg : DosboxConfig)
    (sec : String × SectionOpts) (m : String)
    (h : cfg.hasSectionB m = true) :
    (importSectionPure cfg sec).hasSectionB m = true := by
  unfold importSectionPure
  by_cases ha : sec.1 = "autoexec"
  · simpa [ha]
  · by_cases hp : (cfg.sections.lookup sec.1).isSome
    · rw [if_neg ha, if_pos hp]
      unfold DosboxConfig.hasSectionB at h ⊢
      rcases Bool.or_eq_true_iff.mp h with h2 | h2
      · exact Bool.or_eq_true_iff.mpr (Or.inl h2)
      · refine Bool.or_eq_true_iff.mpr (Or.inr ?_)
        rw [lookup_sectionsUpdate]
        by_cases hm : m = sec.1
        · subst hm
          simp [hp]
        · simpa [hm] using h2
    · rw [if_neg ha, if_neg hp]
      unfold DosboxConfig.hasSectionB at h ⊢
      rcases Bool.or_eq_true_iff.mp h with h2 | h2
      · exact Bool.or_eq_true_iff.mpr (Or.inl h2)
      · refine Bool.or_eq_true_iff.mpr (Or.inr ?_)
        obtain ⟨v, hv⟩ := Option.isSome_iff_exists.mp h2
        simp [lookup_append_left _ _ _ _ hv]

theorem importPure_hasSection (cfg : DosboxConfig)
    (secs : List (String × SectionOpts)) (m : String)
    (h : cfg.hasSectionB m = true) :
    (importPure cfg secs).hasSectionB m = true := by
  induction secs generalizing cfg with
  | nil => exact h
  | cons hd tl ih =>
    unfold importPure
    rw [List.foldl_cons]
    exact ih _ (importSectionPure_hasSection cfg hd m h)

theorem except_bind_ok {ε α β : Type} (a : α) (f : α → Except ε β) :
    (Except.ok a >>= f) = f a := rfl

/-- `buildStep` never raises: it returns its pure image. -/
theorem buildStep_eq (noauto : Bool) (cfg : DosboxConfig)
    (f : ParsedConf × String) :
    buildStep noauto cfg f = .ok (buildStepPure noauto cfg f) := by
  unfold buildStep buildStepPure
  rw [importIniSections_eq, except_bind_ok]
  rfl

theorem foldlM_buildStep_eq (noauto : Bool) (files : List (ParsedConf × String))
    (cfg : DosboxConfig) :
    files.foldlM (buildStep noauto) cfg
      = .ok (files.foldl (buildStepPure noauto) cfg) := by
  induction files generalizing cfg with
  | nil => rfl
  | cons hd tl ih =>
    rw [List.foldlM_cons, buildStep_eq, except_bind_ok, List.foldl_cons]
    exact ih _

theorem buildStepPure_autoexec (noauto : Bool) (cfg : DosboxConfig)
    (f : ParsedConf × String) :
    (buildStepPure noauto cfg f).autoexec
      = cfg.autoexec ++ (if noauto then [] else f.1.autoexecLines.getD []) := by
  unfold buildStepPure
  cases noauto with
  | true =>
    by_cases he : f.2 ≠ "utf-8" <;>
      simp [he, (importPure_autoexec cfg f.1.sections).1]
  | false =>
    cases hl : f.1.autoexecLines with
    | none =>
      by_cases he : f.2 ≠ "utf-8" <;>
        simp [he, hl, (importPure_autoexec cfg f.1.sections).1]
    | some ls =>
      by_cases he : f.2 ≠ "utf-8" <;>
        simp [he, hl, (importPure_autoexec cfg f.1.sections).1]

theorem buildStepPure_encoding (noauto : Bool) (cfg : DosboxConfig)
    (f : ParsedConf × String) :
    (buildStepPure noauto cfg f).encoding
      = if f.2 ≠ "utf-8" then f.2 else cfg.encoding := by
  unfold buildStepPure
  cases noauto with
  | true =>
    by_cases he : f.2 ≠ "utf-8" <;>
      simp [he, (importPure_autoexec cfg f.1.sections).2]
  | false =>
    cases hl : f.1.autoexecLines with
    | none =>
      by_cases he : f.2 ≠ "utf-8" <;>
        simp [he, hl, (importPure_autoexec cfg f.1.sections).2]
    | some ls =>
      by_cases he : f.2 ≠ "utf-8" <;>
        simp [he, hl, (importPure_autoexec cfg f.1.sections).2]

theorem foldl_buildStepPure_autoexec (noauto : Bool)
    (files : List (ParsedConf × String)) (cfg : DosboxConfig) :
    (files.foldl (buildStepPure noauto) cfg).autoexec
      = cfg.autoexec
        ++ (if noauto then []
            else (files.map (fun f => f.1.autoexecLines.getD [])).flatten) := by
  induction files generalizing cfg with
  | nil => cases noauto <;> simp
  | cons hd tl ih =>
    rw [List.foldl_cons, ih, buildStepPure_autoexec]
    cases noauto <;> simp [ List.append_assoc]

/-! ## Claim C4 -/

/-- **C4**: For every combination of parsed configuration files, inline
commands, target executable and flags, `DosboxConfiguration` builds the
autoexec sequence in this exact order: autoexec lines from each parsed
file in order (omitted entirely when `-noautoexec` is requested), then
every inline command in order, then, if a target executable was given,
`mount C <directory-or-.>`, `C:`, then `call <filename>` if the file
name case-insensitively ends in `.bat` or the bare file name otherwise,
then `exit` if and only if exit-after-run was requested.  (The
hypothesis is the constructor's own precondition
`assert commands or conf_files or exe`.) -/
theorem autoexec_assembly_order (files : List (ParsedConf × String))
    (commands : List String) (exe : Option String)
    (noautoexec exitAfterExe : Bool) (tweak : List (String × SectionOpts))
    (toPosix : String → String) (defaultConf : Option (ParsedConf × String))
    (h : commands ≠ [] ∨ files ≠ [] ∨ exe ≠ none) :
    (buildConfigParsed files commands exe noautoexec exitAfterExe tweak
        toPosix defaultConf).map DosboxConfig.autoexec
      = .ok ((if noautoexec then []
              else ((if files.isEmpty then defaultConf.toList else files).map
                (fun f => f.1.autoexecLines.getD [])).flatten)
          ++ commands
          ++ (match exe with
              | none => []
              | some e =>
                ["mount C " ++ (if (splitPosixPath (toPosix e)).1 = "" then "."
                    else (splitPosixPath (toPosix e)).1),
                 "C:",
                 if strEndsWith ".bat" (lowerStr (splitPosixPath (toPosix e)).2)
                   then "call " ++ (splitPosixPath (toPosix e)).2
                   else (splitPosixPath (toPosix e)).2]
                ++ (if exitAfterExe then ["exit"] else []))) := by
  have hcond : (commands.isEmpty && files.isEmpty && exe.isNone) = false := by
    rcases h with h1 | h1 | h1
    · have h2 : commands.isEmpty = false := by
        simpa [List.isEmpty_iff] using h1
      simp [h2]
    · have h2 : files.isEmpty = false := by
        simpa [List.isEmpty_iff] using h1
      simp [h2]
    · cases exe with
      | none => exact absurd rfl h1
      | some e => simp
  unfold buildConfigParsed
  simp only [hcond, Bool.false_eq_true, if_false]
  have hpure : (pure PUnit.unit : Except ConfErr PUnit) = Except.ok PUnit.unit :=
    rfl
  rw [hpure, except_bind_ok, foldlM_buildStep_eq, except_bind_ok,
    importIniSections_eq, except_bind_ok]
  have hmap : ∀ x : DosboxConfig,
      (Except.map DosboxConfig.autoexec (pure x) : Except ConfErr (List String))
        = Except.ok x.autoexec := fun x => rfl
  rw [hmap]
  refine congrArg Except.ok ?_
  cases exe <;>
    simp [(importPure_autoexec _ tweak).1, foldl_buildStepPure_autoexec,
      exeCommands, List.append_assoc]

/-- Witness for C4, matching the specification's own example: target
executable `GAME\RUN.EXE` resolving to `game/RUN.EXE`, with
exit-after-run requested. -/
theorem autoexec_assembly_order_witness :
    (buildConfigParsed [] [] (some "GAME\\RUN.EXE") false true []
        (fun _ => "game/RUN.EXE") none).map DosboxConfig.autoexec
      = .ok ["mount C game", "C:", "RUN.EXE", "exit"] := by
  have h := autoexec_assembly_order [] [] (some "GAME\\RUN.EXE") false true []
    (fun _ => "game/RUN.EXE") none (Or.inr (Or.inr (by simp)))
  exact h.trans (by rfl)

/-! ## Claim C8 -/

/-- **C8**: For every sequence of merged sources, importing a source's
sections into the configuration adopts each section not yet present
wholesale, overrides matching option values key-by-key in sections
already present, never removes a section already adopted, and setting an
option in a section that was never adopted raises a no-such-section
failure rather than silently creating the section.  (`autoexec` is the
distinguished non-mapping key and is always "present"; the import never
treats it as a mapping section.) -/
theorem section_merge_semantics :
    (∀ (cfg : DosboxConfig) (name : String) (opts : SectionOpts),
        cfg.hasSectionB name = false →
        importSection cfg (name, opts)
          = .ok { cfg with sections := cfg.sections ++ [(name, opts)] }
        ∧ getSectionOpts
            { cfg with sections := cfg.sections ++ [(name, opts)] } name
            = some opts
        ∧ (∀ m, ¬m = name →
            getSectionOpts
              { cfg with sections := cfg.sections ++ [(name, opts)] } m
              = getSectionOpts cfg m))
    ∧ (∀ (cfg : DosboxConfig) (name : String) (opts : SectionOpts),
        ¬name = "autoexec" → cfg.hasSectionB name = true →
        (opts.map Prod.fst).Nodup →
        ∃ c2, importSection cfg (name, opts) = .ok c2
          ∧ (∀ k v, (k, v) ∈ opts → getOptVal c2 name k = some v)
          ∧ (∀ k, k ∉ opts.map Prod.fst →
              getOptVal c2 name k = getOptVal cfg name k)
          ∧ (∀ m, ¬m = name → getSectionOpts c2 m = getSectionOpts cfg m)
          ∧ c2.autoexec = cfg.autoexec)
    ∧ (∀ (cfg c2 : DosboxConfig) (srcs : List (String × SectionOpts)),
        importIniSections cfg srcs = .ok c2 →
        ∀ m, cfg.hasSectionB m = true → c2.hasSectionB m = true)
    ∧ (∀ (cfg : DosboxConfig) (name opt val : String),
        cfg.hasSectionB name = false →
        cfg.set name opt val = .error .noSection) := by
  refine ⟨?_, ?_, ?_, ?_⟩
  · intro cfg name opts h
    have h2 := Bool.or_eq_false_iff.mp h
    have hlook : cfg.sections.lookup name = none :=
      Option.not_isSome_iff_eq_none.mp (by simp [h2.2])
    have hna : ¬name = "autoexec" := by
      intro he
      rw [he] at h2
      simp at h2
    refine ⟨?_, ?_, ?_⟩
    · unfold importSection
      rw [if_neg (by simpa using h2.1), if_neg (by simp [h])]
    · unfold getSectionOpts
      simp only
      rw [lookup_append_right_of_none _ _ _ hlook]
      simp [List.lookup]
    · intro m hm
      unfold getSectionOpts
      simp only
      cases hml : cfg.sections.lookup m with
      | some v => rw [lookup_append_left _ _ _ _ hml]
      | none =>
        rw [lookup_append_right_of_none _ _ _ hml]
        simp [List.lookup, beq_false_of_ne hm]
  · intro cfg name opts hna hp hnd
    have hsome : (cfg.sections.lookup name).isSome := by
      rcases Bool.or_eq_true_iff.mp hp with h2 | h2
      · exact absurd (eq_of_beq h2) hna
      · exact h2
    obtain ⟨old, hold⟩ := Option.isSome_iff_exists.mp hsome
    have hc2 : importSectionPure cfg (name, opts)
        = { cfg with
            sections := sectionsUpdate cfg.sections name
              (fun o => opts.foldl (fun o2 kv => optsSet o2 kv.1 kv.2) o) } := by
      unfold importSectionPure
      rw [if_neg hna, if_pos (by simpa using hsome)]
    refine ⟨importSectionPure cfg (name, opts), importSection_eq cfg _, ?_, ?_, ?_, ?_⟩
    · intro k v hkv
      rw [hc2]
      unfold getOptVal getSectionOpts
      simp only
      rw [lookup_sectionsUpdate, if_pos rfl, hold]
      simp [lookup_foldl_optsSet_mem opts old k v hnd hkv]
    · intro k hk
      rw [hc2]
      unfold getOptVal getSectionOpts
      simp only
      rw [lookup_sectionsUpdate, if_pos rfl, hold]
      simp [lookup_foldl_optsSet_not_mem opts old k hk]
    · intro m hm
      rw [hc2]
      unfold getSectionOpts
      simp only
      rw [lookup_sectionsUpdate, if_neg hm]
    · rw [hc2]
  · intro cfg c2 srcs himp m hm
    have he : c2 = importPure cfg srcs := by
      have := (importIniSections_eq cfg srcs).symm.trans himp
      exact (Except.ok.inj this).symm
    rw [he]
    exact importPure_hasSection cfg srcs m hm
  · intro cfg name opt val h
    unfold DosboxConfig.set
    rw [if_neg (by simp [h])]

/-- Witness for C8: adopting an unseen `[cpu]` section wholesale, and a
`set` on the absent `[mixer]` section failing with `NoSectionError`. -/
theorem section_merge_semantics_witness :
    importSection
        ⟨[("render", [("aspect", "false")])], ["echo"], "utf-8"⟩
        ("cpu", [("cycles", "max")])
      = .ok ⟨[("render", [("aspect", "false")]), ("cpu", [("cycles", "max")])],
          ["echo"], "utf-8"⟩
    ∧ DosboxConfig.set
        ⟨[("render", [("aspect", "false")])], ["echo"], "utf-8"⟩
        "mixer" "rate" "22050"
      = .error .noSection :=
  ⟨(section_merge_semantics.1
      ⟨[("render", [("aspect", "false")])], ["echo"], "utf-8"⟩
      "cpu" [("cycles", "max")] (by decide)).1,
   section_merge_semantics.2.2.2
      ⟨[("render", [("aspect", "false")])], ["echo"], "utf-8"⟩
      "mixer" "rate" "22050" (by decide)⟩

/-! ## Claim C6 -/

/-- **C6**: For every configuration file whose contents are not valid
UTF-8, `parse_dosbox_config` retries the read exactly once using the
cp1250 code page and returns that encoding alongside the parsed
sections; the configuration built from such a file records encoding
`cp1250`, and `create_user_conf_file` opens its output file with that
recorded encoding. -/
theorem encoding_fallback (iniOf : String → ParsedConf) (bytes : List Nat)
    (txt : String) (h1 : utf8Decode bytes = none)
    (h2 : cp1250Decode bytes = some txt) :
    parse_dosbox_config iniOf bytes = .ok (iniOf txt, "cp1250")
    ∧ (∀ (commands : List String) (exe : Option String)
        (noautoexec exitAfterExe : Bool) (tweak : List (String × SectionOpts))
        (toPosix : String → String)
        (defaultConf : Option (ParsedConf × String)),
        (buildConfigBytes iniOf [bytes] commands exe noautoexec exitAfterExe
            tweak toPosix defaultConf).map DosboxConfig.encoding
          = .ok "cp1250")
    ∧ (∀ (cfg : DosboxConfig) (dosboxArgs : String)
        (toPosix : String → String),
        (create_user_conf_file cfg dosboxArgs toPosix).1 = cfg.encoding) := by
  have hparse : parse_dosbox_config iniOf bytes = .ok (iniOf txt, "cp1250") := by
    unfold parse_dosbox_config
    rw [h1, h2]
  refine ⟨hparse, ?_, fun _ _ _ => rfl⟩
  intro commands exe noauto exitA tweak toPosix dflt
  unfold buildConfigBytes
  have hmapM : ([bytes].mapM (parse_dosbox_config iniOf)
      : Except ConfErr (List (ParsedConf × String)))
      = .ok [(iniOf txt, "cp1250")] := by
    simp [List.mapM, List.mapM.loop, hparse]
  rw [hmapM, except_bind_ok]
  unfold buildConfigParsed
  have hcond : (commands.isEmpty
      && ([(iniOf txt, "cp1250")] : List (ParsedConf × String)).isEmpty
      && exe.isNone) = false := by simp
  simp only [hcond, Bool.false_eq_true, if_false]
  rw [show (pure PUnit.unit : Except ConfErr PUnit) = Except.ok PUnit.unit
      from rfl, except_bind_ok, foldlM_buildStep_eq, except_bind_ok,
    importIniSections_eq, except_bind_ok]
  have hmap : ∀ x : DosboxConfig,
      (Except.map DosboxConfig.encoding (pure x) : Except ConfErr String)
        = Except.ok x.encoding := fun x => rfl
  rw [hmap]
  refine congrArg Except.ok ?_
  have hne : ¬(("cp1250" : String) = "utf-8") := by decide
  cases exe <;>
    simp [(importPure_autoexec _ tweak).2, List.foldl_cons,
      buildStepPure_encoding, hne]

/-- Witness for C6: a five-byte file `[a]\n` + `0xA9` is invalid UTF-8,
decodes under cp1250, and the built configuration records `cp1250`. -/
theorem encoding_fallback_witness :
    parse_dosbox_config (fun _ => ⟨[], none⟩) [0x5b, 0x61, 0x5d, 0x0a, 0xa9]
      = .ok (⟨[], none⟩, "cp1250")
    ∧ (buildConfigBytes (fun _ => ⟨[], none⟩)
        [[0x5b, 0x61, 0x5d, 0x0a, 0xa9]] [] none false false []
        (fun s => s) none).map DosboxConfig.encoding = .ok "cp1250" := by
  have h := encoding_fallback (fun _ => ⟨[], none⟩)
    [0x5b, 0x61, 0x5d, 0x0a, 0xa9] "[a]\n©"
    (by decide) (by decide)
  exact ⟨h.1, h.2.1 [] none false false [] (fun s => s) none⟩

/-! ## Claim C5 -/

set_option maxRecDepth 100000 in
/-- FIPS 180-4 test vector, validating the SHA-1 embedding. -/
theorem sha1Hexdigest_abc :
    sha1Hexdigest (utf8EncodeStr "abc")
      = "a9993e364706816aba3e25717850c26c9cd0d89d" := by decide

set_option maxRecDepth 100000 in
/-- Second test vector (empty message). -/
theorem sha1Hexdigest_empty :
    sha1Hexdigest (utf8EncodeStr "")
      = "da39a3ee5e6b4b0d3255bfef95601890afd80709" := by decide

theorem sha1HexChars_length (msg : List Nat) :
    (sha1HexChars msg).length = 40 := by
  unfold sha1HexChars wordHex8
  simp

theorem hexDigit_lt16_isHexDigit :
    ∀ n < 16, isHexDigitChar (hexDigit n) = true := by decide

theorem wordHex8_hexDigits (w : Nat) :
    ∀ c ∈ wordHex8 w, isHexDigitChar c = true := by
  intro c hc
  unfold wordHex8 at hc
  simp only [List.mem_cons, List.not_mem_nil, or_false] at hc
  rcases hc with rfl | rfl | rfl | rfl | rfl | rfl | rfl | rfl <;>
    exact hexDigit_lt16_isHexDigit _ (Nat.mod_lt _ (by norm_num))

theorem sha1HexChars_hexDigits (msg : List Nat) :
    ∀ c ∈ sha1HexChars msg, isHexDigitChar c = true := by
  intro c hc
  unfold sha1HexChars at hc
  simp only [List.mem_append] at hc
  rcases hc with ((((h | h) | h) | h) | h) <;> exact wordHex8_hexDigits _ c h

/-- **C5**: For every game identifier and every list of invocation
argument strings, `uniq_conf_name` is deterministic (two calls with
identical inputs return the identical name) and returns exactly
`steam_dos_<id>_<f>.conf`, where `<f>` is the first 6 hexadecimal
characters of the SHA-1 hash of the identifier concatenated with all
arguments (no separator) concatenated with the salt `v1`. -/
theorem conf_name_deterministic_format (appId : String) (args : List String) :
    uniq_conf_name appId args = uniq_conf_name appId args
    ∧ uniq_conf_name appId args
        = "steam_dos_" ++ appId ++ "_"
          ++ (⟨(sha1HexChars
                (utf8EncodeStr (appId ++ String.join args ++ "v1"))).take 6⟩
              : String)
          ++ ".conf"
    ∧ ((sha1HexChars
          (utf8EncodeStr (appId ++ String.join args ++ "v1"))).take 6).length
        = 6
    ∧ ((sha1HexChars
          (utf8EncodeStr (appId ++ String.join args ++ "v1"))).take 6).all
        isHexDigitChar = true := by
  refine ⟨rfl, rfl, ?_, ?_⟩
  · rw [List.length_take, sha1HexChars_length]
    norm_num
  · rw [List.all_eq_true]
    intro c hc
    exact sha1HexChars_hexDigits _ c (List.mem_of_mem_take hc)

/-! ## Claim C9 -/

/-- **C9**: For every input configuration and every run, the
environment file written by `create_auto_conf_file` contains a
`[sblaster]` section consisting of exactly the lines `sbtype=sb16`,
`sbbase=220`, `irq=7`, `dma=1`, `hdma=5` — five constants that do not
depend on any input. -/
theorem sblaster_section_constant (conf : Option DosboxConfig)
    (mport : Option MidiPort) (resolution scaler : String) :
    sblasterSection 220 7 1 5
        ∈ create_auto_conf_writes conf mport resolution scaler
    ∧ sblasterSection 220 7 1 5
        = "[sblaster]\nsbtype=sb16\nsbbase=220\nirq=7\ndma=1\nhdma=5\n\n" := by
  constructor
  · unfold create_auto_conf_writes
    simp
  · decide

/-! ## Claim C1 -/

/-- **C1** (amended): the `[dos]` section of the environment file is
emitted exactly when the merged configuration has a `dos` section; its
`xms`/`ems`/`umb` values are taken from that section, each defaulting
to `true` when missing.  When the merged configuration has no `dos`
section, no `[dos]` section is written at all (the original claim's
"still emitted with all three flags `true`" fails, see the
counterexample). -/
theorem create_auto_writes_some (c : DosboxConfig) (mport : Option MidiPort)
    (resolution scaler : String) :
    create_auto_conf_writes (some c) mport resolution scaler
      = (["# Generated by steam-dos\n",
          "# This file is re-created on every run\n", "\n",
          sdlSection1 resolution,
          renderSection1
            (if c.hasSectionB "render" then
              (((c.sections.lookup "render").getD []).lookup "aspect").getD
                "false"
            else "false") scaler,
          sblasterSection 220 7 1 5]
        ++ (match mport with
            | some p => [midiSection p.addr]
            | none => []))
        ++ (if c.hasSectionB "dos" then
            [dosSection (dosFlagValue c "xms") (dosFlagValue c "ems")
              (dosFlagValue c "umb")]
          else []) := rfl

theorem take5_append_left (s t : String) (h : 5 ≤ s.data.length) :
    (s ++ t).data.take 5 = s.data.take 5 := by
  rw [String.data_append]
  exact List.take_append_of_le_length h

theorem len5_append (s t : String) (h : 5 ≤ s.data.length) :
    5 ≤ (s ++ t).data.length := by
  rw [String.data_append, List.length_append]
  omega

theorem sdl_take5 (res : String) :
    (sdlSection1 res).data.take 5 = ['[', 's', 'd', 'l', ']'] := by
  unfold sdlSection1
  rw [take5_append_left _ _ (len5_append _ _ (by decide)),
    take5_append_left _ _ (by decide)]
  decide

theorem render_take5 (a s : String) :
    (renderSection1 a s).data.take 5 = ['[', 'r', 'e', 'n', 'd'] := by
  unfold renderSection1
  have h1 : 5 ≤ ("[render]\naspect=" : String).data.length := by decide
  have h2 := len5_append _ a h1
  have h3 := len5_append ("[render]\naspect=" ++ a) "\nscaler=" h2
  have h4 := len5_append ("[render]\naspect=" ++ a ++ "\nscaler=") s h3
  rw [take5_append_left _ _ h4, take5_append_left _ _ h3,
    take5_append_left _ _ h2, take5_append_left _ _ h1]
  decide

theorem midi_take5 (p : String) :
    (midiSection p).data.take 5 = ['[', 'm', 'i', 'd', 'i'] := by
  unfold midiSection
  rw [take5_append_left _ _
      (len5_append _ _ (by decide)),
    take5_append_left _ _ (by decide)]
  decide

/-- **C1** (amended): the `[dos]` section of the environment file is
emitted exactly when the merged configuration has a `dos` section; its
`xms`/`ems`/`umb` values are taken from that section, each defaulting
to `true` when missing.  When the merged configuration has no `dos`
section, no `[dos]` section is written at all (the original claim's
"still emitted with all three flags `true`" fails, see the
counterexample). -/
theorem dos_section_emission (c : DosboxConfig) (mport : Option MidiPort)
    (resolution scaler : String) :
    (c.hasSectionB "dos" = true →
      ∃ pre, create_auto_conf_writes (some c) mport resolution scaler
        = pre ++ [dosSection
            ((((c.sections.lookup "dos").getD []).lookup "xms").getD "true")
            ((((c.sections.lookup "dos").getD []).lookup "ems").getD "true")
            ((((c.sections.lookup "dos").getD []).lookup "umb").getD "true")])
    ∧ (c.hasSectionB "dos" = false →
      ∀ w ∈ create_auto_conf_writes (some c) mport resolution scaler,
        w.data.take 5 ≠ "[dos]".data) := by
  constructor
  · intro h
    rw [create_auto_writes_some, if_pos h]
    exact ⟨_, rfl⟩
  · intro h w hw
    rw [create_auto_writes_some] at hw
    simp only [h, Bool.false_eq_true, if_false] at hw
    cases mport with
    | none =>
      simp only [List.append_nil, List.mem_append, List.mem_cons,
        List.not_mem_nil, or_false] at hw
      rcases hw with rfl | rfl | rfl | rfl | rfl | rfl
      · decide
      · decide
      · decide
      · rw [sdl_take5]; decide
      · rw [render_take5]; decide
      · decide
    | some p =>
      simp only [List.append_nil, List.mem_append, List.mem_cons,
        List.not_mem_nil, or_false] at hw
      rcases hw with (rfl | rfl | rfl | rfl | rfl | rfl) | rfl
      · decide
      · decide
      · decide
      · rw [sdl_take5]; decide
      · rw [render_take5]; decide
      · decide
      · rw [midi_take5]; decide

/-- Witness for C1: a configuration whose `dos` section sets only
`xms=false` gets a `[dos]` section with `xms=false` and the defaulted
`ems=true`, `umb=true`. -/
theorem dos_section_emission_witness :
    ∃ pre, create_auto_conf_writes
        (some ⟨[("dos", [("xms", "false")])], [], "utf-8"⟩) none
        "640x480" "normal2x"
      = pre ++ [dosSection "false" "true" "true"] :=
  (dos_section_emission ⟨[("dos", [("xms", "false")])], [], "utf-8"⟩ none
    "640x480" "normal2x").1 (by decide)

/-- Counterexample to C1 as stated: for a merged configuration with no
`dos` section, the environment file contains no `[dos]` section at all
(no written string even starts with `[dos]`), contradicting "the
section is still emitted with all three flags set to `true`". -/
theorem dos_section_counterexample :
    (∀ w ∈ create_auto_conf_writes
        (some ⟨[("render", [("aspect", "true")])], [], "utf-8"⟩) none
        "640x480" "normal2x", w.data.take 5 ≠ "[dos]".data)
    ∧ ¬("[dos]\nxms=true\nems=true\numb=true\n\n"
          ∈ create_auto_conf_writes
            (some ⟨[("render", [("aspect", "true")])], [], "utf-8"⟩) none
            "640x480" "normal2x") := by decide

/-! ## Claim C2 -/

/-- **C2** (amended): when the sequencer status file is absent or
unreadable, `open()` raises and — the source installing no handler —
the failure propagates out of both `list_alsa_sequencer_ports` and
`detect_software_synthesiser`; a present file with no matching lines
yields an empty port sequence and an absent detection result. -/
theorem seq_ports_absent_file (expr : String) :
    list_alsa_sequencer_ports none = .error ()
    ∧ detect_software_synthesiser expr none = .error ()
    ∧ list_alsa_sequencer_ports (some []) = .ok []
    ∧ detect_software_synthesiser expr (some []) = .ok none :=
  ⟨rfl, rfl, rfl, rfl⟩

/-- Counterexample to C2 as stated: with the status file absent, the
enumeration does *not* produce an empty sequence and the detection does
*not* return an absent result — both raise. -/
theorem seq_ports_absent_file_counterexample :
    list_alsa_sequencer_ports none ≠ .ok []
    ∧ detect_software_synthesiser "timidity|fluid" none ≠ .ok none :=
  ⟨fun h => Except.noConfusion h, fun h => Except.noConfusion h⟩

/-! ## Claim C7 -/

/-- **C7** (amended): `detect_software_synthesiser` returns the first
port, in enumeration order, whose 4-character flags string has `W` as
its second character and whose *lower-cased* client name matches the
given name expression anchored at the start (case-insensitive exactly
when the expression is lower-case, as the program's
`r'timidity|fluid'` is); absent when no port satisfies both. -/
theorem detect_first_write_port (nameExpr : String) (ports : List MidiPort) :
    detectFromPorts nameExpr ports
      = ports.find? (fun p => (p.flags.data.get? 1 == some 'W')
          && reAltMatch nameExpr (lowerStr p.name)) := by
  induction ports with
  | nil => rfl
  | cons p rest ih =>
    cases hW : (p.flags.data.get? 1 == some 'W') with
    | false =>
      have hne : ¬p.flags.data.get? 1 = some 'W' := by
        intro he
        rw [he] at hW
        simp at hW
      rw [List.find?_cons_of_neg _ (by
        intro hc
        simp only [hW, Bool.false_and] at hc
        exact Bool.false_ne_true hc)]
      unfold detectFromPorts
      rw [if_pos hne]
      exact ih
    | true =>
      have heq : p.flags.data.get? 1 = some 'W' := eq_of_beq hW
      cases hM : reAltMatch nameExpr (lowerStr p.name) with
      | true =>
        rw [List.find?_cons_of_pos _ (by simp only [hW, hM, Bool.true_and])]
        unfold detectFromPorts
        rw [if_neg (by simp only [ne_eq, not_not]; exact heq), if_pos hM]
      | false =>
        rw [List.find?_cons_of_neg _ (by
          intro hc
          simp only [hW, hM, Bool.true_and] at hc
          exact Bool.false_ne_true hc)]
        unfold detectFromPorts
        rw [if_neg (by simp only [ne_eq, not_not]; exact heq), if_neg (by simp [hM])]
        exact ih

/-- Counterexample to C7 as stated: a write-capable port whose client
name `FLUID Synth` matches the expression `Fluid` case-insensitively is
*not* returned, because the source lower-cases only the name, not the
expression. -/
theorem detect_first_write_port_counterexample :
    specCaseInsensitiveMatch "Fluid" "FLUID Synth" = true
    ∧ ("-W--" : String).data.get? 1 = some 'W'
    ∧ detectFromPorts "Fluid"
        [⟨"128:0", "FLUID Synth", "Synth input port", "User", "-W--"⟩]
      = none := by decide

/-! ## Claim C3 -/

/-- **C3** (amended): `to_linux_autoexec` rewrites a mount/imgmount
command by lower-casing the command word, upper-casing the drive
letter, re-resolving the path argument through the case resolver and
re-quoting it, trying the double-quoted path pattern before the
unquoted one; a line that is solely a drive-change such as `d:` is
re-emitted upper-cased *with its colon*, yielding `D:` (not `D` as
originally claimed); every other line passes through unchanged. -/
theorem autoexec_rewrite (toPosix : String → String) :
    to_linux_autoexec toPosix ["MOUNT d \"Install\\Data\""]
      = ["mount D \"" ++ toPosix "Install\\Data" ++ "\""]
    ∧ to_linux_autoexec toPosix ["d:"] = ["D:"]
    ∧ to_linux_autoexec toPosix ["mount c \"a b\" -t cdrom"]
      = ["mount C \"" ++ toPosix "a b" ++ "\" -t cdrom"]
    ∧ ∀ line : String, mountMatch true line = none →
        mountMatch false line = none → changeDrvMatch line = none →
        to_linux_autoexec toPosix [line] = [line] := by
  refine ⟨?_, rfl, ?_, ?_⟩
  · show ["mount" ++ " " ++ (⟨['d'.toUpper]⟩ : String) ++ " \""
        ++ toPosix "Install\\Data" ++ "\"" ++ ""]
      = ["mount D \"" ++ toPosix "Install\\Data" ++ "\""]
    refine congrArg (fun s => [s]) ?_
    apply String.ext
    simp only [String.data_append, List.append_assoc, List.append_nil,
      show ("mount" : String).data = ['m', 'o', 'u', 'n', 't'] from rfl,
      show (" " : String).data = [' '] from rfl,
      show (String.mk ['d'.toUpper]).data = ['D'] from rfl,
      show (" \"" : String).data = [' ', '"'] from rfl,
      show ("\"" : String).data = ['"'] from rfl,
      show ("" : String).data = ([] : List Char) from rfl,
      show ("mount D \"" : String).data
        = ['m', 'o', 'u', 'n', 't', ' ', 'D', ' ', '"'] from rfl,
      List.cons_append, List.nil_append]
    rfl
  · show ["mount" ++ " " ++ (⟨['c'.toUpper]⟩ : String) ++ " \""
        ++ toPosix "a b" ++ "\"" ++ " -t cdrom"]
      = ["mount C \"" ++ toPosix "a b" ++ "\" -t cdrom"]
    refine congrArg (fun s => [s]) ?_
    apply String.ext
    simp only [String.data_append, List.append_assoc,
      show ("mount" : String).data = ['m', 'o', 'u', 'n', 't'] from rfl,
      show (" " : String).data = [' '] from rfl,
      show (String.mk ['c'.toUpper]).data = ['C'] from rfl,
      show (" \"" : String).data = [' ', '"'] from rfl,
      show ("\"" : String).data = ['"'] from rfl,
      show (" -t cdrom" : String).data
        = [' ', '-', 't', ' ', 'c', 'd', 'r', 'o', 'm'] from rfl,
      show ("mount C \"" : String).data
        = ['m', 'o', 'u', 'n', 't', ' ', 'C', ' ', '"'] from rfl,
      show ("\" -t cdrom" : String).data
        = ['"', ' ', '-', 't', ' ', 'c', 'd', 'r', 'o', 'm'] from rfl,
      List.cons_append, List.nil_append]
    rfl
  · intro line h1 h2 h3
    unfold to_linux_autoexec
    rw [List.map_cons, List.map_nil]
    unfold toLinuxAutoexecLine
    rw [h1, h2, h3]
    rfl

/-- Witness for C3: a plain command line passes through unchanged. -/
theorem autoexec_rewrite_witness :
    to_linux_autoexec (fun s => s) ["echo hello"] = ["echo hello"] :=
  (autoexec_rewrite (fun s => s)).2.2.2 "echo hello"
    (by decide) (by decide) (by decide)

/-- Counterexample to C3 as stated: converting `d:` yields `D:`
(capture group 1 includes the colon), not `D`. -/
theorem autoexec_rewrite_counterexample :
    to_linux_autoexec (fun s => s) ["d:"] = ["D:"]
    ∧ to_linux_autoexec (fun s => s) ["d:"] ≠ ["D"] := by decide

/-! ## Claim C10 -/

/-- **C10**: For every argument list, `parse_dosbox_arguments` drops
every `-c` occurrence that was given with no value (or an empty value)
from the resulting inline-command list, while preserving the non-empty
`-c` values in the order given; a bare `-c` flag contributes no
autoexec command. -/
theorem inline_command_filter (tokens : List String) (raw : RawArgs)
    (hscan : scanArgs {} tokens = some raw) (r : DosboxArgs)
    (hparse : parse_dosbox_arguments tokens = some r) :
    r.c = (raw.c.filterMap id).filter (fun s => s ≠ "")
    ∧ "" ∉ r.c
    ∧ r.c.Sublist (raw.c.filterMap id) := by
  unfold parse_dosbox_arguments at hparse
  rw [hscan] at hparse
  have hparse2 : (if raw.positionals.length ≤ 1 then
      some { conf := raw.conf,
             c := (raw.c.filterMap id).filter (fun s => s ≠ ""),
             noautoexec := raw.noautoexec, noconsole := raw.noconsole,
             fullscreen := raw.fullscreen, exitArg := raw.exitArg,
             file := raw.positionals.head? }
    else none) = some r := hparse
  by_cases hp : raw.positionals.length ≤ 1
  · rw [if_pos hp] at hparse2
    have hr := (Option.some.inj hparse2).symm
    subst hr
    refine ⟨rfl, ?_, List.filter_sublist _⟩
    intro hmem
    have h2 := List.of_mem_filter hmem
    simp at h2
  · rw [if_neg hp] at hparse2
    cases hparse2

/-- Witness for C10: `-c cls`, a bare `-c`, and `-c ""` yield exactly
`["cls"]`. -/
theorem inline_command_filter_witness :
    ∃ r, parse_dosbox_arguments
        ["-c", "cls", "-c", "-c", "", "-exit", "GAME.EXE"] = some r
      ∧ r.c = ["cls"] ∧ "" ∉ r.c := by
  have h := inline_command_filter
    ["-c", "cls", "-c", "-c", "", "-exit", "GAME.EXE"]
    ⟨[], [some "cls", none, some ""], false, false, false, true, ["GAME.EXE"]⟩
    (by decide)
    ⟨[], ["cls"], false, false, false, true, some "GAME.EXE"⟩
    (by decide)
  exact ⟨_, by decide, h.1.trans (by decide), h.2.1⟩

end SteamDos
